import Mathlib

/-!
Verification development for the price-feed market-data aggregator.

The Go source is shallowly embedded:
* Go maps are modelled as association lists (`alookup` / `aset` / `adel`);
  a *nil* Go map is `Option.none`, distinct from an empty (made) map
  `some []`.  Writing to a nil map panics in Go; panics are modelled as
  `Except.error ()`.
* `float64` values are idealized as exact rationals (`Rat`): every price
  and size in the claims is exactly representable and the claims concern
  the algebra of the operations, not rounding.
* `int64` sequence numbers and Unix times are modelled as `Int`.
* Redis sorted sets are modelled as lists of `(score, member)` pairs
  (`ZSet`); JSON encode/decode of members is modelled as the identity
  (exact round-trip).
-/

/-- Lookup in an association list modelling a Go map (`m[k]`, second
component of the comma-ok form). -/
def alookup {κ α : Type} [DecidableEq κ] : List (κ × α) → κ → Option α
  | [], _ => none
  | (k', v) :: t, k => if k' = k then some v else alookup t k

/-- Go map assignment `m[k] = v`: replace the binding if the key is
present, otherwise append it. -/
def aset {κ α : Type} [DecidableEq κ] : List (κ × α) → κ → α → List (κ × α)
  | [], k, v => [(k, v)]
  | (k', v') :: t, k, v => if k' = k then (k, v) :: t else (k', v') :: aset t k v

/-- Go `delete(m, k)`: remove the binding for `k` (a no-op when absent). -/
def adel {κ α : Type} [DecidableEq κ] : List (κ × α) → κ → List (κ × α)
  | [], _ => []
  | (k', v') :: t, k => if k' = k then adel t k else (k', v') :: adel t k

theorem alookup_aset_self {κ α : Type} [DecidableEq κ] (m : List (κ × α)) (k : κ) (v : α) :
    alookup (aset m k v) k = some v := by
  induction m with
  | nil => simp [aset, alookup]
  | cons h t ih =>
    by_cases hk : h.1 = k
    · simp [aset, hk, alookup]
    · simp [aset, hk, alookup, ih]

theorem alookup_adel_self {κ α : Type} [DecidableEq κ] (m : List (κ × α)) (k : κ) :
    alookup (adel m k) k = none := by
  induction m with
  | nil => simp [adel, alookup]
  | cons h t ih =>
    by_cases hk : h.1 = k
    · simp [adel, hk, ih]
    · simp [adel, hk, alookup, ih]

theorem alookup_aset_ne {κ α : Type} [DecidableEq κ] (m : List (κ × α)) (k k' : κ) (v : α)
    (h : k ≠ k') : alookup (aset m k v) k' = alookup m k' := by
  induction m with
  | nil => simp [aset, alookup, h]
  | cons hd t ih =>
    by_cases hk : hd.1 = k
    · simp [aset, hk, alookup, h]
    · simp [aset, hk, alookup, ih]

theorem alookup_adel_ne {κ α : Type} [DecidableEq κ] (m : List (κ × α)) (k k' : κ)
    (h : k ≠ k') : alookup (adel m k) k' = alookup m k' := by
  induction m with
  | nil => simp [adel]
  | cons hd t ih =>
    by_cases hk : hd.1 = k
    · have h2 : hd.1 ≠ k' := by rw [hk]; exact h
      simp [adel, hk, alookup, h2, h, ih]
    · simp [adel, hk, alookup, ih]

/-! ## Order-book data model (`models.OrderBookInternal`, Binance depth events) -/

/-- The literal zero sentinel `zero = "0.00000000"` from the Binance worker. -/
def zeroQuantity : String := "0.00000000"

/-- One price level of a Binance WS depth event (price and quantity are
textual decimals). -/
structure PriceLevel where
  price : String
  quantity : String
deriving DecidableEq, Repr

/-- `models.OrderBookInternal`: sequence number plus the two price→size
maps.  `none` models a nil Go map (the zero value of the struct). -/
structure OrderBookInternal where
  lastUpdateID : Int
  bids : Option (List (String × String))
  asks : Option (List (String × String))
deriving DecidableEq, Repr

/-- `binance.WsDepthEvent` restricted to the fields `updateOrderBook`
reads: the sequence number `u` and the two level lists. -/
structure WsDepthEvent where
  updateID : Int
  bids : List PriceLevel
  asks : List PriceLevel
deriving DecidableEq, Repr

/-- Go zero value of `models.OrderBookInternal` — what `cache[symbol]`
yields for a symbol that has no snapshot: id 0 and two nil maps. -/
def zeroBook : OrderBookInternal := ⟨0, none, none⟩

/-- The per-symbol order-book cache (`map[string]models.OrderBookInternal`). -/
abbrev BookCache : Type := List (String × OrderBookInternal)

/-- One side's loop body of `updateOrderBook`: iterate the event's levels;
a level with the literal zero quantity deletes its price (a no-op even on a
nil map), any other quantity assigns `side[price] = quantity`, which
panics (`Except.error ()`) on a nil map. -/
def applyLevels : Option (List (String × String)) → List PriceLevel →
    Except Unit (Option (List (String × String)))
  | side, [] => Except.ok side
  | none, l :: ls =>
      if l.quantity = zeroQuantity then applyLevels none ls else Except.error ()
  | some m, l :: ls =>
      if l.quantity = zeroQuantity then applyLevels (some (adel m l.price)) ls
      else applyLevels (some (aset m l.price l.quantity)) ls

/-- The same per-level fold on a non-nil side, as a pure function. -/
def applyLevelsPure (m : List (String × String)) (ls : List PriceLevel) :
    List (String × String) :=
  ls.foldl
    (fun acc l =>
      if l.quantity = zeroQuantity then adel acc l.price else aset acc l.price l.quantity)
    m

/-- `Worker.updateOrderBook` (src/exchanges/binance/binance.go:319-353).
Events with `u ≤ cache[symbol].LastUpdateID` are dropped; otherwise the
bid then ask levels are applied to the cached book's maps.  The function
never assigns `cache[symbol]` itself, so the maps of an existing entry
are mutated in place (modelled by re-storing the updated struct) while a
missing entry stays missing; `LastUpdateID` is never written. -/
def updateOrderBook (cache : BookCache) (symbol : String) (event : WsDepthEvent) :
    Except Unit BookCache :=
  let book := (alookup cache symbol).getD zeroBook
  if event.updateID ≤ book.lastUpdateID then
    Except.ok cache
  else
    match applyLevels book.bids event.bids, applyLevels book.asks event.asks with
    | Except.ok bids', Except.ok asks' =>
        Except.ok
          (if (alookup cache symbol).isSome then
            aset cache symbol { book with bids := bids', asks := asks' }
          else cache)
    | _, _ => Except.error ()

/-- Apply a stream of depth events in arrival order, stopping at a panic. -/
def updateOrderBookSeq (cache : BookCache) (symbol : String) :
    List WsDepthEvent → Except Unit BookCache
  | [] => Except.ok cache
  | e :: es =>
    match updateOrderBook cache symbol e with
    | Except.ok c' => updateOrderBookSeq c' symbol es
    | Except.error x => Except.error x

/-! ## Lemmas about level application -/

theorem applyLevels_some (ls : List PriceLevel) :
    ∀ m, applyLevels (some m) ls = Except.ok (some (applyLevelsPure m ls)) := by
  induction ls with
  | nil => intro m; rfl
  | cons l t ih =>
    intro m
    by_cases hz : l.quantity = zeroQuantity
    · simp [applyLevels, applyLevelsPure, hz, List.foldl_cons, ih]
    · simp [applyLevels, applyLevelsPure, hz, List.foldl_cons, ih]

theorem applyLevelsPure_cons (m : List (String × String)) (l : PriceLevel)
    (ls : List PriceLevel) :
    applyLevelsPure m (l :: ls) =
      applyLevelsPure
        (if l.quantity = zeroQuantity then adel m l.price else aset m l.price l.quantity) ls := by
  by_cases hz : l.quantity = zeroQuantity <;> simp [applyLevelsPure, hz, List.foldl_cons]

theorem alookup_applyLevelsPure_not_mem (ls : List PriceLevel) :
    ∀ m p, p ∉ ls.map PriceLevel.price →
      alookup (applyLevelsPure m ls) p = alookup m p := by
  induction ls with
  | nil => intro m p _; rfl
  | cons l t ih =>
    intro m p hp
    have hlp : l.price ≠ p := by
      intro hc; exact hp (by simp [hc])
    have hpt : p ∉ t.map PriceLevel.price := by
      intro hc; exact hp (by simp [hc])
    rw [applyLevelsPure_cons]
    by_cases hz : l.quantity = zeroQuantity
    · rw [if_pos hz, ih _ _ hpt, alookup_adel_ne _ _ _ hlp]
    · rw [if_neg hz, ih _ _ hpt, alookup_aset_ne _ _ _ _ hlp]

theorem alookup_applyLevelsPure (ls : List PriceLevel) :
    ∀ m, (ls.map PriceLevel.price).Nodup → ∀ l ∈ ls,
      alookup (applyLevelsPure m ls) l.price =
        if l.quantity = zeroQuantity then none else some l.quantity := by
  induction ls with
  | nil => intro m _ l hl; exact absurd hl (List.not_mem_nil l)
  | cons hd t ih =>
    intro m hnd l hl
    have hnd' : (t.map PriceLevel.price).Nodup := (List.nodup_cons.mp hnd).2
    have hhd : hd.price ∉ t.map PriceLevel.price := (List.nodup_cons.mp hnd).1
    rcases List.mem_cons.mp hl with rfl | hlt
    · rw [applyLevelsPure_cons]
      by_cases hz : l.quantity = zeroQuantity
      · rw [if_pos hz, if_pos hz, alookup_applyLevelsPure_not_mem _ _ _ hhd,
          alookup_adel_self]
      · rw [if_neg hz, if_neg hz, alookup_applyLevelsPure_not_mem _ _ _ hhd,
          alookup_aset_self]
    · rw [applyLevelsPure_cons]
      exact ih _ hnd' l hlt

theorem applyLevels_none_of_allZero (ls : List PriceLevel)
    (h : ∀ l ∈ ls, l.quantity = zeroQuantity) :
    applyLevels none ls = Except.ok none := by
  induction ls with
  | nil => rfl
  | cons hd t ih =>
    have hz : hd.quantity = zeroQuantity := h hd (List.mem_cons_self hd t)
    simp only [applyLevels, if_pos hz]
    exact ih (fun l hl => h l (List.mem_cons_of_mem hd hl))

theorem applyLevels_none_of_nonZero (ls : List PriceLevel)
    (h : ∃ l ∈ ls, l.quantity ≠ zeroQuantity) :
    applyLevels none ls = Except.error () := by
  induction ls with
  | nil => rcases h with ⟨l, hl, _⟩; exact absurd hl (List.not_mem_nil l)
  | cons hd t ih =>
    by_cases hz : hd.quantity = zeroQuantity
    · simp only [applyLevels, if_pos hz]
      rcases h with ⟨l, hl, hq⟩
      rcases List.mem_cons.mp hl with rfl | hlt
      · exact absurd hz hq
      · exact ih ⟨l, hlt, hq⟩
    · simp only [applyLevels, if_neg hz]

/-! ## Claim theorems: order-book reconciler -/

theorem updateOrderBook_lastUpdateID (cache : BookCache) (symbol : String)
    (e : WsDepthEvent) (cache' : BookCache)
    (h : updateOrderBook cache symbol e = Except.ok cache') :
    (alookup cache' symbol).map OrderBookInternal.lastUpdateID
      = (alookup cache symbol).map OrderBookInternal.lastUpdateID := by
  unfold updateOrderBook at h
  by_cases hg : e.updateID ≤ ((alookup cache symbol).getD zeroBook).lastUpdateID
  · rw [if_pos hg] at h
    cases h
    rfl
  · rw [if_neg hg] at h
    rcases hb : applyLevels ((alookup cache symbol).getD zeroBook).bids e.bids with x | bids'
    · rw [hb] at h; cases h
    rcases ha : applyLevels ((alookup cache symbol).getD zeroBook).asks e.asks with x | asks'
    · rw [hb, ha] at h; cases h
    rw [hb, ha] at h
    cases h
    by_cases hs : (alookup cache symbol).isSome
    · rcases Option.isSome_iff_exists.mp hs with ⟨book, hbook⟩
      rw [if_pos hs, alookup_aset_self, hbook]
      rfl
    · rw [if_neg hs]

/-- C1 (amended): applying any sequence of depth events through
`updateOrderBook` never changes the cached book's `last_update_id`; it
stays at the value recorded from the REST snapshot (the function never
writes the field). -/
theorem updateOrderBookSeq_lastUpdateID (symbol : String) (events : List WsDepthEvent) :
    ∀ cache cache', updateOrderBookSeq cache symbol events = Except.ok cache' →
      (alookup cache' symbol).map OrderBookInternal.lastUpdateID
        = (alookup cache symbol).map OrderBookInternal.lastUpdateID := by
  induction events with
  | nil =>
    intro cache cache' h
    cases h
    rfl
  | cons e es ih =>
    intro cache cache' h
    unfold updateOrderBookSeq at h
    rcases hu : updateOrderBook cache symbol e with x | c1
    · rw [hu] at h; cases h
    · rw [hu] at h
      exact (ih c1 cache' h).trans (updateOrderBook_lastUpdateID cache symbol e c1 hu)

/-- C1 witness: a snapshot at id 100 followed by an applied event with
`u = 101`; the stored id is still 100. -/
theorem updateOrderBookSeq_lastUpdateID_witness :
    updateOrderBookSeq [("LTCBTC", ⟨100, some [], some []⟩)] "LTCBTC"
        [⟨101, [⟨"0.1", "2"⟩], []⟩]
      = Except.ok [("LTCBTC", ⟨100, some [("0.1", "2")], some []⟩)]
    ∧ (alookup [("LTCBTC", (⟨100, some [("0.1", "2")], some []⟩ : OrderBookInternal))]
        "LTCBTC").map OrderBookInternal.lastUpdateID
      = (alookup [("LTCBTC", (⟨100, some [], some []⟩ : OrderBookInternal))]
        "LTCBTC").map OrderBookInternal.lastUpdateID :=
  ⟨rfl, updateOrderBookSeq_lastUpdateID "LTCBTC" [⟨101, [⟨"0.1", "2"⟩], []⟩]
    [("LTCBTC", ⟨100, some [], some []⟩)]
    [("LTCBTC", ⟨100, some [("0.1", "2")], some []⟩)] rfl⟩

/-- C1 counterexample: over a snapshot with `lastUpdateId = 100`, the
single applied event has `u = 101 > 100`, so the claim says the book's
`last_update_id` afterwards is 101; the code leaves it at 100. -/
theorem updateOrderBook_lastUpdateID_counterexample :
    updateOrderBookSeq [("LTCBTC", ⟨100, some [], some []⟩)] "LTCBTC"
        [⟨101, [⟨"0.1", "2"⟩], []⟩]
      = Except.ok [("LTCBTC", ⟨100, some [("0.1", "2")], some []⟩)]
    ∧ ((alookup [("LTCBTC", (⟨100, some [("0.1", "2")], some []⟩ : OrderBookInternal))]
        "LTCBTC").map OrderBookInternal.lastUpdateID ≠ some 101) := by
  constructor
  · rfl
  · decide

/-- C6: an event with `u ≤` the cached book's `last_update_id` is dropped —
`updateOrderBook` succeeds and the cache (hence the book) is completely
unchanged; the identical event with `u >` the id is applied, rewriting the
book's sides by the per-level fold. -/
theorem updateOrderBook_drop_or_apply (cache : BookCache) (symbol : String)
    (book : OrderBookInternal) (e : WsDepthEvent)
    (hb : alookup cache symbol = some book) :
    (e.updateID ≤ book.lastUpdateID → updateOrderBook cache symbol e = Except.ok cache)
    ∧ (book.lastUpdateID < e.updateID →
        ∀ bm am, book.bids = some bm → book.asks = some am →
          updateOrderBook cache symbol e =
            Except.ok (aset cache symbol
              { book with bids := some (applyLevelsPure bm e.bids),
                          asks := some (applyLevelsPure am e.asks) })) := by
  constructor
  · intro hle
    unfold updateOrderBook
    rw [hb]
    exact if_pos hle
  · intro hlt bm am hbm ham
    unfold updateOrderBook
    rw [hb]
    simp only [Option.getD_some, Option.isSome_some, if_true]
    rw [if_neg (not_le.mpr hlt), hbm, ham, applyLevels_some, applyLevels_some]

/-- C6 witness (E2): a diff with `u = 100` over a snapshot with
`lastUpdateId = 100` leaves the book unchanged; the same diff with
`u = 101` is applied. -/
theorem updateOrderBook_drop_or_apply_witness :
    alookup [("LTCBTC", (⟨100, some [("0.009", "5")], some []⟩ : OrderBookInternal))]
        "LTCBTC" = some ⟨100, some [("0.009", "5")], some []⟩
    ∧ updateOrderBook [("LTCBTC", ⟨100, some [("0.009", "5")], some []⟩)] "LTCBTC"
        ⟨100, [⟨"0.009", "7"⟩], []⟩
      = Except.ok [("LTCBTC", ⟨100, some [("0.009", "5")], some []⟩)]
    ∧ updateOrderBook [("LTCBTC", ⟨100, some [("0.009", "5")], some []⟩)] "LTCBTC"
        ⟨101, [⟨"0.009", "7"⟩], []⟩
      = Except.ok [("LTCBTC", ⟨100, some [("0.009", "7")], some []⟩)] := by
  refine ⟨rfl, ?_, ?_⟩
  · exact (updateOrderBook_drop_or_apply
      [("LTCBTC", ⟨100, some [("0.009", "5")], some []⟩)] "LTCBTC"
      ⟨100, some [("0.009", "5")], some []⟩ ⟨100, [⟨"0.009", "7"⟩], []⟩ rfl).1 (by decide)
  · exact (updateOrderBook_drop_or_apply
      [("LTCBTC", ⟨100, some [("0.009", "5")], some []⟩)] "LTCBTC"
      ⟨100, some [("0.009", "5")], some []⟩ ⟨101, [⟨"0.009", "7"⟩], []⟩ rfl).2 (by decide)
      [("0.009", "5")] [] rfl rfl

/-- C5: when an event is applied (`u >` the cached id) over a cached book
with non-nil sides, every level with the literal size `"0.00000000"` ends
with its price absent from the corresponding side, and every level with
any other size ends with `side[price] = size` (event levels carry distinct
prices per side). -/
theorem updateOrderBook_zero_size_deletion (cache : BookCache) (symbol : String)
    (book : OrderBookInternal) (bm am : List (String × String)) (e : WsDepthEvent)
    (hb : alookup cache symbol = some book)
    (hbm : book.bids = some bm) (ham : book.asks = some am)
    (hu : book.lastUpdateID < e.updateID)
    (hnb : (e.bids.map PriceLevel.price).Nodup)
    (hna : (e.asks.map PriceLevel.price).Nodup) :
    ∃ bm' am',
      updateOrderBook cache symbol e =
        Except.ok (aset cache symbol { book with bids := some bm', asks := some am' })
      ∧ (∀ l ∈ e.bids,
          alookup bm' l.price = if l.quantity = zeroQuantity then none else some l.quantity)
      ∧ (∀ l ∈ e.asks,
          alookup am' l.price = if l.quantity = zeroQuantity then none else some l.quantity) := by
  refine ⟨applyLevelsPure bm e.bids, applyLevelsPure am e.asks, ?_, ?_, ?_⟩
  · exact (updateOrderBook_drop_or_apply cache symbol book e hb).2 hu bm am hbm ham
  · exact fun l hl => alookup_applyLevelsPure e.bids bm hnb l hl
  · exact fun l hl => alookup_applyLevelsPure e.asks am hna l hl

/-- C5 witness: an event deleting one bid (zero sentinel) and writing one
ask. -/
theorem updateOrderBook_zero_size_deletion_witness :
    alookup [("LTCBTC", (⟨7, some [("0.009", "5")], some [("0.010", "1")]⟩ :
        OrderBookInternal))] "LTCBTC"
      = some ⟨7, some [("0.009", "5")], some [("0.010", "1")]⟩
    ∧ (7 : Int) < 8
    ∧ ∃ bm' am',
        updateOrderBook [("LTCBTC", ⟨7, some [("0.009", "5")], some [("0.010", "1")]⟩)]
            "LTCBTC" ⟨8, [⟨"0.009", "0.00000000"⟩], [⟨"0.011", "3"⟩]⟩
          = Except.ok (aset [("LTCBTC", ⟨7, some [("0.009", "5")], some [("0.010", "1")]⟩)]
              "LTCBTC" ⟨7, some bm', some am'⟩)
        ∧ (∀ l ∈ [(⟨"0.009", "0.00000000"⟩ : PriceLevel)],
            alookup bm' l.price = if l.quantity = zeroQuantity then none else some l.quantity)
        ∧ (∀ l ∈ [(⟨"0.011", "3"⟩ : PriceLevel)],
            alookup am' l.price = if l.quantity = zeroQuantity then none else some l.quantity) :=
  ⟨rfl, by decide,
    updateOrderBook_zero_size_deletion
      [("LTCBTC", ⟨7, some [("0.009", "5")], some [("0.010", "1")]⟩)] "LTCBTC"
      ⟨7, some [("0.009", "5")], some [("0.010", "1")]⟩ [("0.009", "5")] [("0.010", "1")]
      ⟨8, [⟨"0.009", "0.00000000"⟩], [⟨"0.011", "3"⟩]⟩ rfl rfl rfl (by decide)
      (by decide) (by decide)⟩

/-- C10: for a symbol with no cache entry (no REST snapshot yet) and an
event with `u > 0`, any bid or ask level whose size is not the zero
sentinel is assigned into a nil map and panics; an event all of whose
levels carry the zero sentinel only issues deletes on nil maps, which are
no-ops, and succeeds leaving the cache unchanged. -/
theorem updateOrderBook_nil_cache (cache : BookCache) (symbol : String) (e : WsDepthEvent)
    (hmiss : alookup cache symbol = none) (hu : 0 < e.updateID) :
    ((∃ l ∈ e.bids, l.quantity ≠ zeroQuantity) ∨ (∃ l ∈ e.asks, l.quantity ≠ zeroQuantity) →
      updateOrderBook cache symbol e = Except.error ())
    ∧ ((∀ l ∈ e.bids, l.quantity = zeroQuantity) → (∀ l ∈ e.asks, l.quantity = zeroQuantity) →
      updateOrderBook cache symbol e = Except.ok cache) := by
  constructor
  · intro hnz
    unfold updateOrderBook
    rw [hmiss]
    simp only [Option.getD_none, zeroBook]
    rw [if_neg (not_le.mpr hu)]
    rcases hnz with hnb | hna
    · rw [applyLevels_none_of_nonZero e.bids hnb]
    · by_cases hball : ∀ l ∈ e.bids, l.quantity = zeroQuantity
      · rw [applyLevels_none_of_allZero e.bids hball, applyLevels_none_of_nonZero e.asks hna]
      · push_neg at hball
        rw [applyLevels_none_of_nonZero e.bids hball]
  · intro hzb hza
    unfold updateOrderBook
    rw [hmiss]
    simp only [Option.getD_none, zeroBook]
    rw [if_neg (not_le.mpr hu), applyLevels_none_of_allZero e.bids hzb,
      applyLevels_none_of_allZero e.asks hza]
    rfl

/-- C10 witness: with an empty cache, an event with one non-zero ask level
panics, while an event with only zero-size levels succeeds. -/
theorem updateOrderBook_nil_cache_witness :
    alookup ([] : BookCache) "ETHBTC" = none
    ∧ (0 : Int) < 5
    ∧ updateOrderBook [] "ETHBTC" ⟨5, [], [⟨"0.011", "3"⟩]⟩ = Except.error ()
    ∧ updateOrderBook [] "ETHBTC" ⟨5, [⟨"0.009", "0.00000000"⟩], []⟩ = Except.ok [] := by
  refine ⟨rfl, by decide, ?_, ?_⟩
  · exact (updateOrderBook_nil_cache [] "ETHBTC" ⟨5, [], [⟨"0.011", "3"⟩]⟩ rfl (by decide)).1
      (Or.inr ⟨⟨"0.011", "3"⟩, by decide⟩)
  · exact (updateOrderBook_nil_cache [] "ETHBTC" ⟨5, [⟨"0.009", "0.00000000"⟩], []⟩ rfl
      (by decide)).2 (by decide) (by decide)

/-! ## Candle data model and the sorted time-series store -/

/-- `models.Candle` (third-generation models): times in Unix seconds,
prices and volume idealized as exact rationals. -/
structure Candle where
  timeStart : Int
  timeEnd : Int
  time : Int
  open_ : Rat
  close : Rat
  high : Rat
  low : Rat
  volume : Rat
deriving DecidableEq, Repr, Inhabited

/-- A Redis sorted set: `(score, member)` pairs in insertion order. -/
abbrev ZSet (α : Type) : Type := List (Int × α)

/-- `ZREMRANGEBYSCORE key lo hi`: drop every member whose score lies in
the inclusive window. -/
def zremrangebyscore {α : Type} (z : ZSet α) (lo hi : Int) : ZSet α :=
  z.filter (fun p => ¬(lo ≤ p.1 ∧ p.1 ≤ hi))

/-- `ZADD key score member`: a member already in the set has its score
updated, otherwise it is added. -/
def zadd {α : Type} [DecidableEq α] (z : ZSet α) (score : Int) (member : α) : ZSet α :=
  z.filter (fun p => p.2 ≠ member) ++ [(score, member)]

/-- `ZRANGEBYSCORE key lo hi`: the members with score in the inclusive
window, in ascending score order. -/
def zrangebyscore {α : Type} (z : ZSet α) (lo hi : Int) : List α :=
  (List.insertionSort (fun p q : Int × α => p.1 ≤ q.1)
    (z.filter (fun p => lo ≤ p.1 ∧ p.1 ≤ hi))).map Prod.snd

/-- The members stored at exactly the given score. -/
def membersAtScore {α : Type} (z : ZSet α) (score : Int) : List α :=
  (z.filter (fun p => p.1 = score)).map Prod.snd

/-- `Client.storeCandlestick` (src/orderbook/binance/orderbook.go:529-535,
final storage revision): purge exactly the candle's open-time score, then
add the member at that score. -/
def storeCandlestick {α : Type} [DecidableEq α] (z : ZSet α) (openTime : Int) (data : α) :
    ZSet α :=
  zadd (zremrangebyscore z openTime openTime) openTime data

theorem membersAtScore_storeCandlestick {α : Type} [DecidableEq α]
    (z : ZSet α) (t : Int) (d : α) :
    membersAtScore (storeCandlestick z t d) t = [d] := by
  unfold membersAtScore storeCandlestick zadd zremrangebyscore
  rw [List.filter_append, List.map_append]
  have h1 : ((z.filter (fun p => ¬(t ≤ p.1 ∧ p.1 ≤ t))).filter
      (fun p => p.2 ≠ d)).filter (fun p : Int × α => p.1 = t) = [] := by
    rw [List.filter_eq_nil_iff]
    intro p hp
    have hp1 := List.of_mem_filter (List.mem_of_mem_filter hp)
    simp only [decide_eq_true_eq] at hp1
    simp only [decide_eq_true_eq]
    intro hc
    exact hp1 ⟨le_of_eq hc.symm, le_of_eq hc⟩
  rw [h1]
  simp

/-- C7: writing two candles with the same open-time into one
`(exchange, symbol, interval)` sorted-set key leaves exactly one member at
that score, the later one (each write purges exactly that score then
adds). -/
theorem storeCandlestick_upsert {α : Type} [DecidableEq α]
    (z : ZSet α) (t : Int) (a b : α) :
    membersAtScore (storeCandlestick (storeCandlestick z t a) t b) t = [b] :=
  membersAtScore_storeCandlestick (storeCandlestick z t a) t b

/-! ## Cross-exchange candlestick merge (`Client.LoadCandlestickListAll`) -/

/-- Loop state of the merge in `LoadCandlestickListAll`
(src/orderbook/binance/orderbook.go:384-475): the accumulated candle list
plus the `counts` and `indexes` maps keyed by `TimeStart`. -/
structure MergeState where
  candleList : List Candle
  counts : List (Int × Nat)
  indexes : List (Int × Nat)
deriving DecidableEq, Repr

/-- `counts[t]++` on a Go `map[int64]int` (absent key counts as 0). -/
def bumpCount (counts : List (Int × Nat)) (t : Int) : List (Int × Nat) :=
  aset counts t ((alookup counts t).getD 0 + 1)

/-- `counts[t]` with the Go zero default. -/
def getCount (counts : List (Int × Nat)) (t : Int) : Nat :=
  (alookup counts t).getD 0

/-- Binance loop body: count, remember the index, append as-is. -/
def binanceStep (st : MergeState) (c : Candle) : MergeState :=
  { candleList := st.candleList ++ [c]
    counts := bumpCount st.counts c.timeStart
    indexes := aset st.indexes c.timeStart st.candleList.length }

/-- Bittrex loop body: new buckets are inserted as-is; an existing bucket
takes `high ← max`, `low ← min`, `volume ← old + new` and the plain
averages `open ← (old+new)/2`, `close ← (old+new)/2`. -/
def bittrexStep (st : MergeState) (c : Candle) : MergeState :=
  let counts := bumpCount st.counts c.timeStart
  match alookup st.indexes c.timeStart with
  | none =>
      { candleList := st.candleList ++ [c]
        counts := counts
        indexes := aset st.indexes c.timeStart st.candleList.length }
  | some r =>
      let old := st.candleList.getD r default
      let m1 := if c.high > old.high then { old with high := c.high } else old
      let m2 := if c.low < m1.low then { m1 with low := c.low } else m1
      let m3 := { m2 with
                    volume := m2.volume + c.volume
                    open_ := (m2.open_ + c.open_) / 2
                    close := (m2.close + c.close) / 2 }
      { candleList := st.candleList.set r m3
        counts := counts
        indexes := st.indexes }

/-- Poloniex loop body, transcribed exactly: `low` is compared with `>`
(so it takes the max — the source's known quirk), and the `counts` checks
run after the increment, so a bucket with one prior contributor hits the
`== 2` branch `(old·2+new)/3`, and a bucket with two prior contributors
hits neither branch, leaving `open`/`close` unchanged. -/
def poloniexStep (st : MergeState) (c : Candle) : MergeState :=
  let counts := bumpCount st.counts c.timeStart
  match alookup st.indexes c.timeStart with
  | none =>
      { candleList := st.candleList ++ [c]
        counts := counts
        indexes := aset st.indexes c.timeStart st.candleList.length }
  | some r =>
      let old := st.candleList.getD r default
      let m1 := if c.high > old.high then { old with high := c.high } else old
      let m2 := if c.low > m1.low then { m1 with low := c.low } else m1
      let m3 := { m2 with volume := m2.volume + c.volume }
      let m4 :=
        if getCount counts c.timeStart = 1 then
          { m3 with open_ := (m3.open_ + c.open_) / 2, close := (m3.close + c.close) / 2 }
        else m3
      let m5 :=
        if getCount counts c.timeStart = 2 then
          { m4 with open_ := (m4.open_ * 2 + c.open_) / 3, close := (m4.close * 2 + c.close) / 3 }
        else m4
      { candleList := st.candleList.set r m5
        counts := counts
        indexes := st.indexes }

/-- The in-memory fuse of `LoadCandlestickListAll`: the three per-exchange
result lists are folded in the fixed order Binance → Bittrex → Poloniex. -/
def mergeAll (rb rx rp : List Candle) : List Candle :=
  (rp.foldl poloniexStep (rx.foldl bittrexStep (rb.foldl binanceStep ⟨[], [], []⟩))).candleList

/-- Go's `if new > old { old = new }` pattern computes a maximum. -/
theorem ite_gt_eq_max (a b : Rat) : (if b > a then b else a) = max a b := by
  rcases le_or_lt b a with h | h
  · rw [if_neg (not_lt.mpr h), max_eq_left h]
  · rw [if_pos h, max_eq_right h.le]

/-- C2 counterexample: one Binance candle (`open = 1`) and one Poloniex
candle (`open = 4`) share a bucket; this is the first merge into the
bucket (one prior contributor), so the claim demands
`open = (1+4)/2 = 5/2`, but the merge yields `(1·2+4)/3 = 2` because the
contributor counter is incremented before the `== 2` branch is tested. -/
theorem mergeAll_running_average_counterexample :
    (mergeAll [⟨0, 0, 0, 1, 1, 1, 1, 1⟩] [] [⟨0, 0, 0, 4, 4, 4, 4, 4⟩]).map Candle.open_
      = [2]
    ∧ (mergeAll [⟨0, 0, 0, 1, 1, 1, 1, 1⟩] [] [⟨0, 0, 0, 4, 4, 4, 4, 4⟩]).map Candle.open_
      ≠ [(1 + 4) / 2] := by
  have h : (mergeAll [⟨0, 0, 0, 1, 1, 1, 1, 1⟩] [] [⟨0, 0, 0, 4, 4, 4, 4, 4⟩]).map
      Candle.open_ = [2] := by
    norm_num [mergeAll, binanceStep, bittrexStep, poloniexStep, bumpCount, getCount, aset,
      alookup, List.getD, apply_ite Candle.open_]
  refine ⟨h, ?_⟩
  rw [h]
  simp only [ne_eq, List.cons.injEq, and_true]
  norm_num

/-- C2 (amended): the merged `open`/`close` are not uniform running
averages.  A Bittrex candle merging into an existing bucket always takes
the plain average `(old+new)/2`; a Poloniex candle merging into a bucket
with exactly one prior contributor takes `(old·2+new)/3` (the counter is
incremented before the `== 2` test), and with two prior contributors
leaves `open` and `close` unchanged.  So Binance+Bittrex gives `(a+b)/2`,
either exchange + Poloniex gives `(2a+b)/3`, and all three give
`(a+b)/2` from the Binance and Bittrex candles only. -/
theorem mergeAll_open_close_running (b x p : Candle)
    (hx : x.timeStart = b.timeStart) (hp : p.timeStart = b.timeStart) :
    ((mergeAll [b] [x] []).map Candle.open_ = [(b.open_ + x.open_) / 2]
      ∧ (mergeAll [b] [x] []).map Candle.close = [(b.close + x.close) / 2])
    ∧ ((mergeAll [b] [] [p]).map Candle.open_ = [(b.open_ * 2 + p.open_) / 3]
      ∧ (mergeAll [b] [] [p]).map Candle.close = [(b.close * 2 + p.close) / 3])
    ∧ ((mergeAll [] [x] [p]).map Candle.open_ = [(x.open_ * 2 + p.open_) / 3]
      ∧ (mergeAll [] [x] [p]).map Candle.close = [(x.close * 2 + p.close) / 3])
    ∧ ((mergeAll [b] [x] [p]).map Candle.open_ = [(b.open_ + x.open_) / 2]
      ∧ (mergeAll [b] [x] [p]).map Candle.close = [(b.close + x.close) / 2]) := by
  simp [mergeAll, binanceStep, bittrexStep, poloniexStep, bumpCount, getCount, aset, alookup,
    hx, hp, apply_ite Candle.open_, apply_ite Candle.close, List.getD]

/-- C2 witness: concrete candles at the same bucket in all four
exchange subsets. -/
theorem mergeAll_open_close_running_witness :
    (Candle.timeStart ⟨0, 0, 0, 2, 4, 4, 2, 5⟩ = Candle.timeStart ⟨0, 0, 0, 1, 2, 3, 1, 10⟩)
    ∧ (Candle.timeStart ⟨0, 0, 0, 6, 6, 6, 6, 6⟩ = Candle.timeStart ⟨0, 0, 0, 1, 2, 3, 1, 10⟩)
    ∧ (mergeAll [⟨0, 0, 0, 1, 2, 3, 1, 10⟩] [⟨0, 0, 0, 2, 4, 4, 2, 5⟩] []).map Candle.open_
      = [(1 + 2) / 2] :=
  ⟨rfl, rfl,
    (mergeAll_open_close_running ⟨0, 0, 0, 1, 2, 3, 1, 10⟩ ⟨0, 0, 0, 2, 4, 4, 2, 5⟩
      ⟨0, 0, 0, 6, 6, 6, 6, 6⟩ rfl rfl).1.1⟩

/-- Characterization of the merged extremes when all three exchanges
contribute one candle to the same bucket: `high` is the three-way max and
`volume` the three-way sum. -/
theorem mergeAll_high_volume_eq (b x p : Candle)
    (hx : x.timeStart = b.timeStart) (hp : p.timeStart = b.timeStart) :
    (mergeAll [b] [x] [p]).map Candle.high = [max (max b.high x.high) p.high]
    ∧ (mergeAll [b] [x] [p]).map Candle.volume = [b.volume + x.volume + p.volume] := by
  simp [mergeAll, binanceStep, bittrexStep, poloniexStep, bumpCount, getCount, aset, alookup,
    hx, hp, apply_ite Candle.high, apply_ite Candle.volume, List.getD, ite_gt_eq_max]
  split_ifs with h
  · rcases h with ⟨h1, h2⟩
    exact (max_eq_right (le_of_lt (max_lt h1 h2))).symm
  · push_neg at h
    rcases le_or_lt p.high b.high with hpb | hpb
    · exact (max_eq_left (le_trans hpb (le_max_left _ _))).symm
    · exact (max_eq_left (le_trans (h hpb) (le_max_right _ _))).symm

/-- C8: for three per-exchange candles at the same bucket, the merged
`high` and `volume` are invariant under every permutation of which
exchange holds which candle (all five non-identity permutations are
listed). -/
theorem mergeAll_extremes_permutation_invariant (x y z : Candle)
    (hy : y.timeStart = x.timeStart) (hz : z.timeStart = x.timeStart) :
    ((mergeAll [y] [x] [z]).map Candle.high = (mergeAll [x] [y] [z]).map Candle.high
      ∧ (mergeAll [y] [x] [z]).map Candle.volume = (mergeAll [x] [y] [z]).map Candle.volume)
    ∧ ((mergeAll [x] [z] [y]).map Candle.high = (mergeAll [x] [y] [z]).map Candle.high
      ∧ (mergeAll [x] [z] [y]).map Candle.volume = (mergeAll [x] [y] [z]).map Candle.volume)
    ∧ ((mergeAll [z] [y] [x]).map Candle.high = (mergeAll [x] [y] [z]).map Candle.high
      ∧ (mergeAll [z] [y] [x]).map Candle.volume = (mergeAll [x] [y] [z]).map Candle.volume)
    ∧ ((mergeAll [y] [z] [x]).map Candle.high = (mergeAll [x] [y] [z]).map Candle.high
      ∧ (mergeAll [y] [z] [x]).map Candle.volume = (mergeAll [x] [y] [z]).map Candle.volume)
    ∧ ((mergeAll [z] [x] [y]).map Candle.high = (mergeAll [x] [y] [z]).map Candle.high
      ∧ (mergeAll [z] [x] [y]).map Candle.volume = (mergeAll [x] [y] [z]).map Candle.volume) := by
  have hyx : x.timeStart = y.timeStart := hy.symm
  have hzy : z.timeStart = y.timeStart := hz.trans hy.symm
  have hyz : y.timeStart = z.timeStart := hy.trans hz.symm
  have hxz : x.timeStart = z.timeStart := hz.symm
  have Hxyz := mergeAll_high_volume_eq x y z hy hz
  have Hyxz := mergeAll_high_volume_eq y x z hyx hzy
  have Hxzy := mergeAll_high_volume_eq x z y hz hy
  have Hzyx := mergeAll_high_volume_eq z y x hyz hxz
  have Hyzx := mergeAll_high_volume_eq y z x hzy hyx
  have Hzxy := mergeAll_high_volume_eq z x y hxz hyz
  refine ⟨⟨?_, ?_⟩, ⟨?_, ?_⟩, ⟨?_, ?_⟩, ⟨?_, ?_⟩, ⟨?_, ?_⟩⟩
  · rw [Hyxz.1, Hxyz.1]
    simp [max_comm, max_assoc, max_left_comm]
  · rw [Hyxz.2, Hxyz.2]
    simp only [List.cons.injEq, and_true]
    ring
  · rw [Hxzy.1, Hxyz.1]
    simp [max_comm, max_assoc, max_left_comm]
  · rw [Hxzy.2, Hxyz.2]
    simp only [List.cons.injEq, and_true]
    ring
  · rw [Hzyx.1, Hxyz.1]
    simp [max_comm, max_assoc, max_left_comm]
  · rw [Hzyx.2, Hxyz.2]
    simp only [List.cons.injEq, and_true]
    ring
  · rw [Hyzx.1, Hxyz.1]
    simp [max_comm, max_assoc, max_left_comm]
  · rw [Hyzx.2, Hxyz.2]
    simp only [List.cons.injEq, and_true]
    ring
  · rw [Hzxy.1, Hxyz.1]
    simp [max_comm, max_assoc, max_left_comm]
  · rw [Hzxy.2, Hxyz.2]
    simp only [List.cons.injEq, and_true]
    ring

/-- C8 witness: three concrete candles at one bucket; swapping the first
two exchanges leaves the merged `high` unchanged. -/
theorem mergeAll_extremes_permutation_invariant_witness :
    (Candle.timeStart ⟨0, 0, 0, 2, 2, 7, 2, 2⟩ = Candle.timeStart ⟨0, 0, 0, 1, 1, 5, 1, 1⟩)
    ∧ (Candle.timeStart ⟨0, 0, 0, 3, 3, 6, 3, 4⟩ = Candle.timeStart ⟨0, 0, 0, 1, 1, 5, 1, 1⟩)
    ∧ (mergeAll [⟨0, 0, 0, 2, 2, 7, 2, 2⟩] [⟨0, 0, 0, 1, 1, 5, 1, 1⟩]
          [⟨0, 0, 0, 3, 3, 6, 3, 4⟩]).map Candle.high
      = (mergeAll [⟨0, 0, 0, 1, 1, 5, 1, 1⟩] [⟨0, 0, 0, 2, 2, 7, 2, 2⟩]
          [⟨0, 0, 0, 3, 3, 6, 3, 4⟩]).map Candle.high :=
  ⟨rfl, rfl,
    (mergeAll_extremes_permutation_invariant ⟨0, 0, 0, 1, 1, 5, 1, 1⟩ ⟨0, 0, 0, 2, 2, 7, 2, 2⟩
      ⟨0, 0, 0, 3, 3, 6, 3, 4⟩ rfl rfl).1.1⟩

/-! ## /candles time alignment and the candlestick read pipeline -/

/-- `models.BinanceCandlestickIntervalList` — the canonical interval set. -/
def BinanceCandlestickIntervalList : List String :=
  ["1m", "3m", "5m", "15m", "30m", "1h", "2h", "4h", "6h", "8h", "12h", "1d", "3d", "1w", "1M"]

/-- `models.IsValidInterval`: membership in the canonical set. -/
def IsValidInterval (s : String) : Bool :=
  BinanceCandlestickIntervalList.contains s

/-- Digit-string to number; `none` on the empty string or a non-digit. -/
def parseNatDigits (cs : List Char) : Option Nat :=
  if cs = [] then none
  else
    cs.foldl
      (fun acc c =>
        match acc with
        | none => none
        | some n => if c.isDigit then some (n * 10 + (c.toNat - 48)) else none)
      (some 0)

/-- Model of Go's `time.ParseDuration` restricted to the shapes that occur
in the canonical interval vocabulary: an unsigned integer followed by a
unit `h`, `m` or `s`; the result is in seconds.  Anything else (including
`"1M"`, whose `M` is not a Go duration unit) is an error. -/
def parseGoDuration (s : String) : Option Int :=
  let cs := s.toList
  match cs.getLast? with
  | some 'h' => (parseNatDigits cs.dropLast).map (fun n => (n : Int) * 3600)
  | some 'm' => (parseNatDigits cs.dropLast).map (fun n => (n : Int) * 60)
  | some 's' => (parseNatDigits cs.dropLast).map (fun n => (n : Int))
  | _ => none

/-- Unix seconds of Go's zero time (January 1, year 1, 00:00:00 UTC) below
the epoch: `time.Time.Truncate` rounds down to a multiple of `d` counted
from the zero time, not from the Unix epoch. -/
def unixZeroOffset : Int := 62135596800

/-- Go's `time.Unix(t, 0).Truncate(d)` in Unix seconds (`d` in seconds;
non-positive `d` leaves `t` unchanged, as in Go). -/
def goTruncate (t d : Int) : Int :=
  if d ≤ 0 then t else t - (t + unixZeroOffset) % d

/-- Outcome of computing `timeStartRounded` in
`LoadCandlestickListAll` (src/orderbook/binance/orderbook.go:333-355). -/
inductive AlignResult where
  | ok (t : Int)
  | err
  | panic
deriving DecidableEq, Repr

/-- The `switch interval` that rounds `timeStart` before the store scan.
The `"1M"` arm calls `time.Date(year, month, 1, 0, 0, 0, int(millisecond),
nil)`; Go's `time.Date` panics when the `*time.Location` argument is nil,
so that arm never produces a value. -/
def alignTimeStart (interval : String) (timeStart : Int) : AlignResult :=
  if interval = "1d" then AlignResult.ok (goTruncate timeStart 86400)
  else if interval = "3d" then AlignResult.ok (goTruncate timeStart 259200)
  else if interval = "1w" then AlignResult.ok (goTruncate timeStart 604800)
  else if interval = "1M" then AlignResult.panic
  else
    match parseGoDuration interval with
    | some d => AlignResult.ok (goTruncate timeStart d)
    | none => AlignResult.err

/-- Outcome of `LoadCandlestickListAll`. -/
inductive LoadResult where
  | ok (cs : List Candle)
  | err
  | panic
deriving DecidableEq, Repr

/-- `Client.LoadCandlestickListAll`: round `timeStart` down to the
interval boundary, leave `timeEnd` as-is, range-scan the three
per-exchange candlestick keys over the inclusive window, and fuse the
results in the fixed order Binance → Bittrex → Poloniex. -/
def loadCandlestickListAll (zb zx zp : ZSet Candle) (interval : String)
    (timeStart timeEnd : Int) : LoadResult :=
  match alignTimeStart interval timeStart with
  | AlignResult.panic => LoadResult.panic
  | AlignResult.err => LoadResult.err
  | AlignResult.ok t0 =>
      LoadResult.ok
        (mergeAll (zrangebyscore zb t0 timeEnd) (zrangebyscore zx t0 timeEnd)
          (zrangebyscore zp t0 timeEnd))

/-- `models.CandlestickResponse`. -/
structure CandlestickResponse where
  timeStart : Int
  timeEnd : Int
  candles : List Candle
deriving DecidableEq, Repr

/-- Outcome of the `/candles` handler. -/
inductive HandlerResult where
  | ok (resp : CandlestickResponse)
  | badRequest (msg : String)
  | panic
deriving DecidableEq, Repr

/-- `API.handleCandlestickRequest` (src/api/candlestick.go:11-87) with the
query parameters already extracted: validate the interval, multiply the
client's Unix-second bounds by 1000, query the store with the multiplied
bounds, and echo the multiplied bounds in the response. -/
def handleCandlestickRequest (zb zx zp : ZSet Candle) (interval : String)
    (timeStart timeEnd : Int) : HandlerResult :=
  if ¬ IsValidInterval interval then HandlerResult.badRequest "interval is invalid"
  else
    let ts := timeStart * 1000
    let te := timeEnd * 1000
    match loadCandlestickListAll zb zx zp interval ts te with
    | LoadResult.panic => HandlerResult.panic
    | LoadResult.err => HandlerResult.badRequest "no pair specified"
    | LoadResult.ok cs => HandlerResult.ok ⟨ts, te, cs⟩

/-- C9: requesting any `/candles` range with `interval = "1M"` reaches the
`time.Date(..., nil)` call, which panics on the nil `*time.Location`
instead of truncating `timeStart` to the first of the month at
00:00:00 UTC; the panic propagates through the loader and the handler. -/
theorem alignTimeStart_1M_panics :
    alignTimeStart "1M" 1700000000 = AlignResult.panic
    ∧ loadCandlestickListAll [] [] [] "1M" 1700000000 1700003600 = LoadResult.panic
    ∧ handleCandlestickRequest [] [] [] "1M" 1700000000 1700003600 = HandlerResult.panic := by
  refine ⟨rfl, rfl, ?_⟩
  decide

/-- C3: the literal E3 scenario.  One Binance candle
`(1700000000, O=1, C=2, H=3, L=0.5, V=10)` and one Bittrex candle
`(1700000000, O=2, C=4, H=4, L=0.4, V=5)` are stored; the request is
`symbol=ETHBTC, interval=1h, timeStart=1700000000, timeEnd=1700003600`.
The handler multiplies the bounds by 1000 *before* the store scan, so the
scan window `[1699999999200, 1700003600000]` (seconds) excludes the stored
score `1700000000` and the response carries an empty candle list — not
the merged candle the claim describes — while `timeStart`/`timeEnd` are
echoed multiplied by 1000. -/
theorem handleCandlestick_E3 :
    handleCandlestickRequest
        (storeCandlestick [] 1700000000
          ⟨1700000000, 1700003600, 1700000000, 1, 2, 3, 1 / 2, 10⟩)
        (storeCandlestick [] 1700000000
          ⟨1700000000, 1700000000, 1700000000, 2, 4, 4, 2 / 5, 5⟩)
        [] "1h" 1700000000 1700003600
      = HandlerResult.ok ⟨1700000000000, 1700003600000, []⟩ := by
  decide

/-- Context for C3's divergence: with the *unmultiplied* request bounds
the same loader would find both stored candles and return exactly the
merged candle the claim describes (`open = 1.5`, `close = 3`, `high = 4`,
`low = 0.4`, `volume = 15`). -/
theorem loadCandlestickListAll_E3_unscaled :
    loadCandlestickListAll
        (storeCandlestick [] 1700000000
          ⟨1700000000, 1700003600, 1700000000, 1, 2, 3, 1 / 2, 10⟩)
        (storeCandlestick [] 1700000000
          ⟨1700000000, 1700000000, 1700000000, 2, 4, 4, 2 / 5, 5⟩)
        [] "1h" 1700000000 1700003600
      = LoadResult.ok [⟨1700000000, 1700003600, 1700000000, 3 / 2, 3, 4, 2 / 5, 15⟩] := by
  have e1 : loadCandlestickListAll
      (storeCandlestick [] 1700000000
        ⟨1700000000, 1700003600, 1700000000, 1, 2, 3, 1 / 2, 10⟩)
      (storeCandlestick [] 1700000000
        ⟨1700000000, 1700000000, 1700000000, 2, 4, 4, 2 / 5, 5⟩)
      [] "1h" 1700000000 1700003600
      = LoadResult.ok (mergeAll
          [⟨1700000000, 1700003600, 1700000000, 1, 2, 3, 1 / 2, 10⟩]
          [⟨1700000000, 1700000000, 1700000000, 2, 4, 4, 2 / 5, 5⟩] []) := rfl
  rw [e1]
  have e2 : mergeAll
      [(⟨1700000000, 1700003600, 1700000000, 1, 2, 3, 1 / 2, 10⟩ : Candle)]
      [⟨1700000000, 1700000000, 1700000000, 2, 4, 4, 2 / 5, 5⟩] []
      = [⟨1700000000, 1700003600, 1700000000, 3 / 2, 3, 4, 2 / 5, 15⟩] := by
    norm_num [mergeAll, binanceStep, bittrexStep, poloniexStep, bumpCount, getCount, aset,
      alookup, List.getD, Candle.mk.injEq]
  rw [e2]

/-! ## `OrderBookInternal.Format` (src/unnamed/part_007:486-545) -/

/-- `models.AskBid`: one parsed order-book level. -/
structure AskBid where
  size : Rat
  price : Rat
deriving DecidableEq, Repr

/-- `models.OrderBookAPI`. -/
structure OrderBookAPI where
  asks : List AskBid
  bids : List AskBid
deriving DecidableEq, Repr

/-- Decimal digits to a number (The characters are assumed to be digits;
callers check). -/
def digitsToNat (cs : List Char) : Nat :=
  cs.foldl (fun a c => a * 10 + (c.toNat - 48)) 0

/-- Unsigned part of the `strconv.ParseFloat` model: plain decimal
notation `digits[.digits]`. -/
def parseUnsignedF64 (cs : List Char) : Option Rat :=
  let intPart := cs.takeWhile Char.isDigit
  let rest := cs.dropWhile Char.isDigit
  if intPart = [] then none
  else
    match rest with
    | [] => some (digitsToNat intPart : Rat)
    | '.' :: frac =>
        if frac ≠ [] ∧ frac.all Char.isDigit then
          some ((digitsToNat intPart : Rat) + (digitsToNat frac : Rat) / (10 : Rat) ^ frac.length)
        else none
    | _ => none

/-- Model of `strconv.ParseFloat(s, 64)` for the plain decimal notation the
exchange feeds use; the value is idealized as an exact rational. -/
def parseF64 (s : String) : Option Rat :=
  match s.toList with
  | '-' :: rest => (parseUnsignedF64 rest).map (fun q => -q)
  | cs => parseUnsignedF64 cs

/-- One loop body of `Format`: parse the price key and size value of a map
entry, dropping the entry if either fails. -/
def parseLevel (kv : String × String) : Option AskBid :=
  match parseF64 kv.1, parseF64 kv.2 with
  | some price, some size => some ⟨size, price⟩
  | _, _ => none

/-- The comparison `sort.Slice` uses in `Format`: ascending parsed price. -/
def priceLE (x y : AskBid) : Prop := x.price ≤ y.price

instance : DecidableRel priceLE :=
  fun x y => inferInstanceAs (Decidable (x.price ≤ y.price))

instance : IsTotal AskBid priceLE :=
  ⟨fun x y => le_total x.price y.price⟩

instance : IsTrans AskBid priceLE :=
  ⟨fun _ _ _ h1 h2 => le_trans h1 h2⟩

/-- `OrderBookInternal.Format`: parse both sides (dropping unparseable
entries), sort each by ascending price, and cut to the requested depth:
asks keep the first `min(N,d)` entries, bids keep the last `min(M,d)`.
Map iteration is modelled by the association-list order and `sort.Slice`
by a stable insertion sort; the claims proved below are independent of
both choices.  A nil side iterates zero times. -/
def Format (obi : OrderBookInternal) (depth : Nat) : OrderBookAPI :=
  let asks := (obi.asks.getD []).filterMap parseLevel
  let bids := (obi.bids.getD []).filterMap parseLevel
  let asksSorted := List.insertionSort priceLE asks
  let bidsSorted := List.insertionSort priceLE bids
  let asksDepth := min asks.length depth
  let bidsDepth := min bids.length depth
  ⟨asksSorted.take asksDepth, bidsSorted.drop (bidsSorted.length - bidsDepth)⟩

theorem length_filterMap_of_isSome {α β : Type} (f : α → Option β) :
    ∀ l : List α, (∀ a ∈ l, (f a).isSome) → (l.filterMap f).length = l.length := by
  intro l
  induction l with
  | nil => intro _; rfl
  | cons hd t ih =>
    intro h
    rcases Option.isSome_iff_exists.mp (h hd (List.mem_cons_self hd t)) with ⟨b, hb⟩
    rw [List.filterMap_cons, hb, List.length_cons,
      ih (fun a ha => h a (List.mem_cons_of_mem hd ha)), List.length_cons]

/-- C4: on a book whose price and size strings all parse, `Format` returns
exactly `min(N,d)` asks, sorted by ascending price and forming a prefix of
the full ascending ordering of the book's asks (the lowest-priced ones),
and exactly `min(M,d)` bids, sorted by ascending price and forming a
suffix of the full ascending ordering of the book's bids (the
highest-priced ones). -/
theorem Format_depth (obi : OrderBookInternal) (d : Nat) (am bm : List (String × String))
    (ha : obi.asks = some am) (hb : obi.bids = some bm)
    (hpa : ∀ kv ∈ am, (parseLevel kv).isSome) (hpb : ∀ kv ∈ bm, (parseLevel kv).isSome) :
    ((Format obi d).asks.length = min am.length d
      ∧ (Format obi d).asks.Sorted priceLE
      ∧ (Format obi d).asks <+: List.insertionSort priceLE (am.filterMap parseLevel)
      ∧ (List.insertionSort priceLE (am.filterMap parseLevel)).Perm (am.filterMap parseLevel)
      ∧ (List.insertionSort priceLE (am.filterMap parseLevel)).Sorted priceLE)
    ∧ ((Format obi d).bids.length = min bm.length d
      ∧ (Format obi d).bids.Sorted priceLE
      ∧ (Format obi d).bids <:+ List.insertionSort priceLE (bm.filterMap parseLevel)
      ∧ (List.insertionSort priceLE (bm.filterMap parseLevel)).Perm (bm.filterMap parseLevel)
      ∧ (List.insertionSort priceLE (bm.filterMap parseLevel)).Sorted priceLE) := by
  have hla : (am.filterMap parseLevel).length = am.length :=
    length_filterMap_of_isSome parseLevel am hpa
  have hlb : (bm.filterMap parseLevel).length = bm.length :=
    length_filterMap_of_isSome parseLevel bm hpb
  have hfa : (Format obi d).asks
      = (List.insertionSort priceLE (am.filterMap parseLevel)).take
          (min (am.filterMap parseLevel).length d) := by
    simp only [Format, ha, hb, Option.getD_some]
  have hfb : (Format obi d).bids
      = (List.insertionSort priceLE (bm.filterMap parseLevel)).drop
          ((List.insertionSort priceLE (bm.filterMap parseLevel)).length
            - min (bm.filterMap parseLevel).length d) := by
    simp only [Format, ha, hb, Option.getD_some]
  constructor
  · refine ⟨?_, ?_, ?_, List.perm_insertionSort priceLE _, List.sorted_insertionSort priceLE _⟩
    · rw [hfa, List.length_take, List.length_insertionSort, hla]
      omega
    · rw [hfa]
      exact (List.sorted_insertionSort priceLE _).sublist (List.take_sublist _ _)
    · rw [hfa]
      exact List.take_prefix _ _
  · refine ⟨?_, ?_, ?_, List.perm_insertionSort priceLE _, List.sorted_insertionSort priceLE _⟩
    · rw [hfb, List.length_drop, List.length_insertionSort, hlb]
      omega
    · rw [hfb]
      exact (List.sorted_insertionSort priceLE _).sublist (List.drop_sublist _ _)
    · rw [hfb]
      exact List.drop_suffix _ _

/-- C4 witness: a concrete parseable book (E1's shape) at depth 1. -/
theorem Format_depth_witness :
    (∀ kv ∈ [("0.02", "2"), ("0.01", "1")], (parseLevel kv).isSome)
    ∧ (∀ kv ∈ [("0.009", "5"), ("0.008", "4")], (parseLevel kv).isSome)
    ∧ (Format ⟨0, some [("0.009", "5"), ("0.008", "4")], some [("0.02", "2"), ("0.01", "1")]⟩
        1).asks.length
      = min ([("0.02", "2"), ("0.01", "1")] : List (String × String)).length 1 :=
  ⟨by decide, by decide,
    (Format_depth
      ⟨0, some [("0.009", "5"), ("0.008", "4")], some [("0.02", "2"), ("0.01", "1")]⟩ 1
      [("0.02", "2"), ("0.01", "1")] [("0.009", "5"), ("0.008", "4")] rfl rfl
      (by decide) (by decide)).1.1⟩
